import Mathlib

/-!
Verification development for the log maintenance subsystem of
`index.js` (an Express app with a daily log writer, a retention
engine and a midnight-UTC scheduler).

The shallow embedding below models:
  * the time and path constants of the configuration section;
  * directory entries as seen by the retention engine (`FileEntry`),
    including flags for the transient failures a real filesystem can
    produce at each of the four system calls the engine performs on an
    entry (`fs.statSync`, `fs.stat`, `fs.unlink`, `fs.rename`);
  * `processDirectory` as the pure scan `processEntries`: the engine
    lists a directory once, then walks the listing in order.  A thrown
    `fs.statSync` aborts the `forEach` walk (the remaining entries are
    left untouched and nothing is logged for them), a failing callback
    based `fs.stat` / `fs.unlink` / `fs.rename` logs an error for that
    single entry and the walk continues;
  * `runLogMaintenance` as one maintenance tick: both directory
    listings are taken at the start of the tick (both `fs.readdir`
    calls are issued before any callback runs), the archive rule is
    applied to the root listing, the purge rule to the archive
    listing, and the resulting deletions and moves are applied to the
    directories, a move replacing any same-named destination entry
    (POSIX `rename` semantics);
  * `logToFile` as a pure function from a timestamp, a level and a
    message to the line appended to the daily file and the line echoed
    to standard output.
-/

namespace FifthWebApp

/-- Time constant from the configuration section: one day in milliseconds. -/
def ONE_DAY_MS : Int := 24 * 60 * 60 * 1000

/-- Threshold of the archive rule: seven days in milliseconds. -/
def SEVEN_DAYS_MS : Int := 7 * ONE_DAY_MS

/-- Threshold of the purge rule: 183 days in milliseconds (the code's
approximation of six months). -/
def SIX_MONTHS_MS : Int := 183 * ONE_DAY_MS

/-- Root log directory path constant. -/
def LOG_ROOT_DIR : String := "/app/data/logs"

/-- Archive directory path constant, a subdirectory of the root. -/
def ARCHIVE_DIR : String := LOG_ROOT_DIR ++ "/archive"

/-- One directory entry as the retention engine sees it.  `mtimeMs` and
`birthtimeMs` are the stat record's modification and creation
timestamps (the code only ever reads `mtimeMs`); `content` is an
abstract identifier of the file's data, used to track data loss across
moves; `isDir` is what `statSync(..).isDirectory()` reports.  The three
error flags model transient per-entry failures: `statSyncErr` makes the
synchronous `fs.statSync` call throw, `statErr` makes the asynchronous
`fs.stat` call fail, and `opErr` makes the action call (`fs.unlink` or
`fs.rename`) fail. -/
structure FileEntry where
  name : String
  mtimeMs : Int
  birthtimeMs : Int
  content : Nat
  isDir : Bool
  statSyncErr : Bool
  statErr : Bool
  opErr : Bool
deriving DecidableEq

/-- Events emitted through `logToFile` by the maintenance code, one
constructor per call site inside `processDirectory` and
`runLogMaintenance`. -/
inductive MaintEvent where
  | startMsg : MaintEvent
  | finishedMsg : MaintEvent
  | readDirFailed : String → MaintEvent
  | statFailed : String → MaintEvent
  | deleteFailed : String → MaintEvent
  | moveFailed : String → MaintEvent
  | purged : String → MaintEvent
  | archived : String → MaintEvent
deriving DecidableEq

/-- An event is an error iff it is written at level ERROR in the source
(the read, stat, delete and move failure messages). -/
def MaintEvent.isError : MaintEvent → Bool
  | .readDirFailed _ => true
  | .statFailed _ => true
  | .deleteFailed _ => true
  | .moveFailed _ => true
  | _ => false

/-- `path.join(dirPath, file)` for our purposes. -/
def entryPath (dirPath : String) (e : FileEntry) : String :=
  dirPath ++ "/" ++ e.name

/-- Result of scanning one directory listing: the entries still present
in the source directory, the entries moved out to the archive (empty
for a purge scan), and the log events emitted. -/
structure ScanResult where
  remaining : List FileEntry
  moved : List FileEntry
  events : List MaintEvent
deriving DecidableEq

/-- The body of `processDirectory` after a successful `fs.readdir`: the
`files.forEach` walk over the listing.  Branches, in the code's order:
`fs.statSync` throwing aborts the walk (the exception escapes the
`forEach`, so the remaining entries are neither acted on nor logged
about); directories are skipped; a failing `fs.stat` logs an error and
skips the entry; an entry with `now - mtimeMs > maxAgeMs` is deleted
(purge) or renamed into the archive (move), a failure of that call
being logged and leaving the entry in place; younger entries are left
alone. -/
def processEntries (now maxAgeMs : Int) (isPurge : Bool) (dirPath : String) :
    List FileEntry → ScanResult
  | [] => ⟨[], [], []⟩
  | e :: rest =>
    if e.statSyncErr then
      ⟨e :: rest, [], []⟩
    else if e.isDir then
      ⟨e :: (processEntries now maxAgeMs isPurge dirPath rest).remaining,
        (processEntries now maxAgeMs isPurge dirPath rest).moved,
        (processEntries now maxAgeMs isPurge dirPath rest).events⟩
    else if e.statErr then
      ⟨e :: (processEntries now maxAgeMs isPurge dirPath rest).remaining,
        (processEntries now maxAgeMs isPurge dirPath rest).moved,
        MaintEvent.statFailed (entryPath dirPath e) ::
          (processEntries now maxAgeMs isPurge dirPath rest).events⟩
    else if now - e.mtimeMs > maxAgeMs then
      if isPurge then
        if e.opErr then
          ⟨e :: (processEntries now maxAgeMs isPurge dirPath rest).remaining,
            (processEntries now maxAgeMs isPurge dirPath rest).moved,
            MaintEvent.deleteFailed (entryPath dirPath e) ::
              (processEntries now maxAgeMs isPurge dirPath rest).events⟩
        else
          ⟨(processEntries now maxAgeMs isPurge dirPath rest).remaining,
            (processEntries now maxAgeMs isPurge dirPath rest).moved,
            MaintEvent.purged e.name ::
              (processEntries now maxAgeMs isPurge dirPath rest).events⟩
      else
        if e.opErr then
          ⟨e :: (processEntries now maxAgeMs isPurge dirPath rest).remaining,
            (processEntries now maxAgeMs isPurge dirPath rest).moved,
            MaintEvent.moveFailed (entryPath dirPath e) ::
              (processEntries now maxAgeMs isPurge dirPath rest).events⟩
        else
          ⟨(processEntries now maxAgeMs isPurge dirPath rest).remaining,
            e :: (processEntries now maxAgeMs isPurge dirPath rest).moved,
            MaintEvent.archived e.name ::
              (processEntries now maxAgeMs isPurge dirPath rest).events⟩
    else
      ⟨e :: (processEntries now maxAgeMs isPurge dirPath rest).remaining,
        (processEntries now maxAgeMs isPurge dirPath rest).moved,
        (processEntries now maxAgeMs isPurge dirPath rest).events⟩

/-- State of the two directories the maintenance code touches, plus
flags making the respective `fs.readdir` call fail. -/
structure FsState where
  root : List FileEntry
  archive : List FileEntry
  rootReaddirErr : Bool
  archiveReaddirErr : Bool
deriving DecidableEq

/-- `fs.rename(filePath, destPath)` into the archive: any existing
entry with the same name at the destination is silently replaced. -/
def replaceFile (dir : List FileEntry) (f : FileEntry) : List FileEntry :=
  dir.filter (fun g => g.name ≠ f.name) ++ [f]

/-- Apply the moves produced by the root scan to the archive directory,
in order. -/
def applyMoves (dir : List FileEntry) (moved : List FileEntry) : List FileEntry :=
  moved.foldl replaceFile dir

/-- One maintenance tick (`runLogMaintenance`): `now` is sampled once
at the start; the archive rule (7 days, move) runs against the root
listing and the purge rule (183 days, delete) against the archive
listing.  Both listings are the tick-start snapshots — the code issues
both `fs.readdir` calls before any callback runs — and the moves land
in the archive directory after the purge deletions.  A failing
`fs.readdir` logs an error and abandons that rule application only. -/
def runLogMaintenance (s : FsState) (now : Int) : FsState × List MaintEvent :=
  let r1 : ScanResult :=
    if s.rootReaddirErr then ⟨s.root, [], [MaintEvent.readDirFailed LOG_ROOT_DIR]⟩
    else processEntries now SEVEN_DAYS_MS false LOG_ROOT_DIR s.root
  let r2 : ScanResult :=
    if s.archiveReaddirErr then ⟨s.archive, [], [MaintEvent.readDirFailed ARCHIVE_DIR]⟩
    else processEntries now SIX_MONTHS_MS true ARCHIVE_DIR s.archive
  (⟨r1.remaining, applyMoves r2.remaining r1.moved,
      s.rootReaddirErr, s.archiveReaddirErr⟩,
    MaintEvent.startMsg :: (r1.events ++ r2.events ++ [MaintEvent.finishedMsg]))

/-- An entry suffers no transient failure at any of its system calls. -/
def entryOk (e : FileEntry) : Bool :=
  !e.statSyncErr && !e.statErr && !e.opErr

/-- No entry of the listing suffers a transient failure. -/
def entriesOk (l : List FileEntry) : Bool :=
  l.all entryOk

/-- No transient I/O failure anywhere in the state: both listings
succeed and every entry's calls succeed. -/
def stateOk (s : FsState) : Bool :=
  !s.rootReaddirErr && !s.archiveReaddirErr &&
    entriesOk s.root && entriesOk s.archive

/-- Eligibility test of the retention engine: a non-directory entry
whose age, measured from `now` against the modification time, strictly
exceeds the threshold. -/
def fileEligible (now maxAgeMs : Int) (e : FileEntry) : Bool :=
  !e.isDir && decide (now - e.mtimeMs > maxAgeMs)

/-- On a listing with no transient failures the scan has a closed form:
the entries kept are exactly the ineligible ones, the moved entries are
the eligible ones of an archive scan, and each eligible entry produces
one success event. -/
theorem processEntries_ok (now maxAgeMs : Int) (p : Bool) (d : String)
    (l : List FileEntry) (h : entriesOk l = true) :
    processEntries now maxAgeMs p d l =
      ⟨l.filter (fun e => !fileEligible now maxAgeMs e),
        if p then [] else l.filter (fileEligible now maxAgeMs),
        l.filterMap (fun e =>
          if fileEligible now maxAgeMs e then
            some (if p then MaintEvent.purged e.name else MaintEvent.archived e.name)
          else none)⟩ := by
  induction l with
  | nil => cases p <;> rfl
  | cons e rest ih =>
    rw [entriesOk, List.all_cons, Bool.and_eq_true] at h
    obtain ⟨he, hrest⟩ := h
    simp only [entryOk, Bool.and_eq_true, Bool.not_eq_true'] at he
    obtain ⟨⟨h1, h2⟩, h3⟩ := he
    have ihr := ih hrest
    by_cases hd : e.isDir
    · simp [processEntries, h1, h2, h3, hd, ihr, fileEligible,
        List.filter_cons, List.filterMap_cons]
    · by_cases hage : now - e.mtimeMs > maxAgeMs
      · cases p <;>
          simp [processEntries, h1, h2, h3, hd, hage, ihr, fileEligible,
            List.filter_cons, List.filterMap_cons]
      · simp [processEntries, h1, h2, h3, hd, hage, ihr, fileEligible,
          List.filter_cons, List.filterMap_cons]

/-- Whatever the failure pattern, the entries remaining in a scanned
directory all come from its listing: the scan never invents entries. -/
theorem mem_of_mem_remaining (now maxAgeMs : Int) (p : Bool) (d : String) :
    ∀ (l : List FileEntry) (x : FileEntry),
      x ∈ (processEntries now maxAgeMs p d l).remaining → x ∈ l := by
  intro l
  induction l with
  | nil =>
    intro x hx
    exact absurd hx (by simp [processEntries])
  | cons e rest ih =>
    intro x hx
    simp only [processEntries] at hx
    repeat' split at hx
    all_goals dsimp only at hx
    all_goals
      first
      | exact hx
      | exact List.mem_cons_of_mem _ (ih x hx)
      | (rcases List.mem_cons.mp hx with h | h
         · exact h ▸ List.mem_cons_self _ _
         · exact List.mem_cons_of_mem _ (ih x h))

/-- Whatever the failure pattern, every entry moved out by a scan comes
from the listing, is not a directory, and is strictly older than the
threshold. -/
theorem mem_moved_spec (now maxAgeMs : Int) (p : Bool) (d : String) :
    ∀ (l : List FileEntry) (x : FileEntry),
      x ∈ (processEntries now maxAgeMs p d l).moved →
        x ∈ l ∧ x.isDir = false ∧ now - x.mtimeMs > maxAgeMs := by
  intro l
  induction l with
  | nil =>
    intro x hx
    exact absurd hx (by simp [processEntries])
  | cons e rest ih =>
    intro x hx
    simp only [processEntries] at hx
    by_cases hss : e.statSyncErr = true
    · rw [if_pos hss] at hx
      exact absurd hx (by simp)
    · rw [if_neg hss] at hx
      by_cases hd : e.isDir = true
      · rw [if_pos hd] at hx
        obtain ⟨h1, h2⟩ := ih x hx
        exact ⟨List.mem_cons_of_mem _ h1, h2⟩
      · rw [if_neg hd] at hx
        by_cases hse : e.statErr = true
        · rw [if_pos hse] at hx
          obtain ⟨h1, h2⟩ := ih x hx
          exact ⟨List.mem_cons_of_mem _ h1, h2⟩
        · rw [if_neg hse] at hx
          by_cases hage : now - e.mtimeMs > maxAgeMs
          · rw [if_pos hage] at hx
            by_cases hp : p = true
            · rw [if_pos hp] at hx
              by_cases hop : e.opErr = true
              · rw [if_pos hop] at hx
                obtain ⟨h1, h2⟩ := ih x hx
                exact ⟨List.mem_cons_of_mem _ h1, h2⟩
              · rw [if_neg hop] at hx
                obtain ⟨h1, h2⟩ := ih x hx
                exact ⟨List.mem_cons_of_mem _ h1, h2⟩
            · rw [if_neg hp] at hx
              by_cases hop : e.opErr = true
              · rw [if_pos hop] at hx
                obtain ⟨h1, h2⟩ := ih x hx
                exact ⟨List.mem_cons_of_mem _ h1, h2⟩
              · rw [if_neg hop] at hx
                rcases List.mem_cons.mp hx with h | h
                · subst h
                  exact ⟨List.mem_cons_self _ _, Bool.not_eq_true _ ▸ Bool.of_not_eq_true hd, hage⟩
                · obtain ⟨h1, h2⟩ := ih x h
                  exact ⟨List.mem_cons_of_mem _ h1, h2⟩
          · rw [if_neg hage] at hx
            obtain ⟨h1, h2⟩ := ih x hx
            exact ⟨List.mem_cons_of_mem _ h1, h2⟩

/-- An entry that is a directory, or whose age does not exceed the
threshold, is still in the directory after the scan — whatever the
failure pattern of the other entries. -/
theorem mem_remaining_of_safe (now maxAgeMs : Int) (p : Bool) (d : String) :
    ∀ (l : List FileEntry) (x : FileEntry), x ∈ l →
      (x.isDir = true ∨ ¬(now - x.mtimeMs > maxAgeMs)) →
      x ∈ (processEntries now maxAgeMs p d l).remaining := by
  intro l
  induction l with
  | nil =>
    intro x hx _
    cases hx
  | cons e rest ih =>
    intro x hx hsafe
    simp only [processEntries]
    by_cases hss : e.statSyncErr = true
    · rw [if_pos hss]
      exact hx
    · rw [if_neg hss]
      rcases List.mem_cons.mp hx with rfl | hmem
      · by_cases hd : x.isDir = true
        · rw [if_pos hd]
          exact List.mem_cons_self _ _
        · rw [if_neg hd]
          by_cases hse : x.statErr = true
          · rw [if_pos hse]
            exact List.mem_cons_self _ _
          · rw [if_neg hse]
            have hage : ¬(now - x.mtimeMs > maxAgeMs) := by
              rcases hsafe with h | h
              · exact absurd h hd
              · exact h
            rw [if_neg hage]
            exact List.mem_cons_self _ _
      · have hr := ih x hmem hsafe
        by_cases hd : e.isDir = true
        · rw [if_pos hd]
          exact List.mem_cons_of_mem _ hr
        · rw [if_neg hd]
          by_cases hse : e.statErr = true
          · rw [if_pos hse]
            exact List.mem_cons_of_mem _ hr
          · rw [if_neg hse]
            by_cases hage : now - e.mtimeMs > maxAgeMs
            · rw [if_pos hage]
              by_cases hp : p = true
              · rw [if_pos hp]
                by_cases hop : e.opErr = true
                · rw [if_pos hop]
                  exact List.mem_cons_of_mem _ hr
                · rw [if_neg hop]
                  exact hr
              · rw [if_neg hp]
                by_cases hop : e.opErr = true
                · rw [if_pos hop]
                  exact List.mem_cons_of_mem _ hr
                · rw [if_neg hop]
                  exact hr
            · rw [if_neg hage]
              exact List.mem_cons_of_mem _ hr

/-- Membership after one rename: an entry of the destination directory
either was already there or is the renamed file itself. -/
theorem mem_replaceFile (dir : List FileEntry) (f x : FileEntry)
    (hx : x ∈ replaceFile dir f) : x ∈ dir ∨ x = f := by
  rcases List.mem_append.mp hx with h | h
  · exact Or.inl (List.mem_filter.mp h).1
  · exact Or.inr (List.mem_singleton.mp h)

/-- An entry of the destination whose name differs from the renamed
file's is untouched by the rename. -/
theorem mem_replaceFile_of_ne (dir : List FileEntry) (f x : FileEntry)
    (hx : x ∈ dir) (hne : x.name ≠ f.name) : x ∈ replaceFile dir f := by
  refine List.mem_append.mpr (Or.inl (List.mem_filter.mpr ⟨hx, ?_⟩))
  simpa using hne

/-- After a rename, the renamed file is the only entry bearing its
name at the destination. -/
theorem replaceFile_name_unique (dir : List FileEntry) (f : FileEntry) :
    ∀ h ∈ replaceFile dir f, h.name = f.name → h = f := by
  intro h hh heq
  rcases List.mem_append.mp hh with h1 | h1
  · have hne := (List.mem_filter.mp h1).2
    rw [decide_eq_true_eq] at hne
    exact absurd heq hne
  · exact List.mem_singleton.mp h1

/-- Entries of the archive after the moves land all come from the old
archive or from the moved files. -/
theorem mem_applyMoves (mv : List FileEntry) :
    ∀ (dir : List FileEntry) (x : FileEntry),
      x ∈ applyMoves dir mv → x ∈ dir ∨ x ∈ mv := by
  induction mv with
  | nil =>
    intro dir x hx
    exact Or.inl hx
  | cons g rest ih =>
    intro dir x hx
    rcases ih (replaceFile dir g) x hx with h | h
    · rcases mem_replaceFile dir g x h with h' | h'
      · exact Or.inl h'
      · exact Or.inr (by rw [h']; exact List.mem_cons_self _ _)
    · exact Or.inr (List.mem_cons_of_mem _ h)

/-- A destination entry whose name collides with none of the moved
files survives all the moves. -/
theorem mem_applyMoves_of_ne_all (mv : List FileEntry) :
    ∀ (dir : List FileEntry) (x : FileEntry), x ∈ dir →
      (∀ g ∈ mv, x.name ≠ g.name) → x ∈ applyMoves dir mv := by
  induction mv with
  | nil =>
    intro dir x hx _
    exact hx
  | cons g rest ih =>
    intro dir x hx hne
    exact ih (replaceFile dir g) x
      (mem_replaceFile_of_ne dir g x hx (hne g (List.mem_cons_self _ _)))
      (fun h hh => hne h (List.mem_cons_of_mem _ hh))

/-- When the moved files have pairwise distinct names, each of them is
present in the archive after the moves land. -/
theorem mem_applyMoves_of_mem_moved (mv : List FileEntry) :
    ∀ (dir : List FileEntry) (f : FileEntry),
      (mv.map FileEntry.name).Nodup → f ∈ mv → f ∈ applyMoves dir mv := by
  induction mv with
  | nil =>
    intro dir f _ hf
    cases hf
  | cons g rest ih =>
    intro dir f hnd hf
    rw [List.map_cons, List.nodup_cons] at hnd
    obtain ⟨hg, hrest⟩ := hnd
    rcases List.mem_cons.mp hf with rfl | hmem
    · refine mem_applyMoves_of_ne_all rest (replaceFile dir f) f ?_ ?_
      · exact List.mem_append.mpr (Or.inr (List.mem_singleton.mpr rfl))
      · intro h hh heq
        exact hg (heq ▸ List.mem_map.mpr ⟨h, hh, rfl⟩)
    · exact ih (replaceFile dir g) f hrest hmem

/-- The name-uniqueness property established for a file is preserved by
moves of files with other names. -/
theorem applyMoves_preserve_unique (mv : List FileEntry) :
    ∀ (dir : List FileEntry) (f : FileEntry),
      (∀ h ∈ dir, h.name = f.name → h = f) →
      (∀ g ∈ mv, g.name ≠ f.name) →
      ∀ h ∈ applyMoves dir mv, h.name = f.name → h = f := by
  induction mv with
  | nil =>
    intro dir f hdir _ h hh heq
    exact hdir h hh heq
  | cons g rest ih =>
    intro dir f hdir hne h hh heq
    refine ih (replaceFile dir g) f ?_
      (fun g' hg' => hne g' (List.mem_cons_of_mem _ hg')) h hh heq
    intro h' hh' heq'
    rcases mem_replaceFile dir g h' hh' with h1 | h1
    · exact hdir h' h1 heq'
    · exact absurd (h1 ▸ heq') (hne g (List.mem_cons_self _ _))

/-- When the moved files have pairwise distinct names, a moved file is
the only entry of the final archive bearing its name. -/
theorem applyMoves_name_unique (mv : List FileEntry) :
    ∀ (dir : List FileEntry) (f : FileEntry),
      (mv.map FileEntry.name).Nodup → f ∈ mv →
      ∀ h ∈ applyMoves dir mv, h.name = f.name → h = f := by
  induction mv with
  | nil =>
    intro dir f _ hf
    cases hf
  | cons g rest ih =>
    intro dir f hnd hf h hh heq
    rw [List.map_cons, List.nodup_cons] at hnd
    obtain ⟨hg, hrest⟩ := hnd
    rcases List.mem_cons.mp hf with rfl | hmem
    · refine applyMoves_preserve_unique rest (replaceFile dir f) f
        (replaceFile_name_unique dir f) ?_ h hh heq
      intro g' hg' heq'
      exact hg (heq' ▸ List.mem_map.mpr ⟨g', hg', rfl⟩)
    · exact ih (replaceFile dir g) f hrest hmem h hh heq

/-- Unpacking of `stateOk`. -/
theorem stateOk_spec (s : FsState) (h : stateOk s = true) :
    s.rootReaddirErr = false ∧ s.archiveReaddirErr = false ∧
      entriesOk s.root = true ∧ entriesOk s.archive = true := by
  simp only [stateOk, Bool.and_eq_true, Bool.not_eq_true'] at h
  exact ⟨h.1.1.1, h.1.1.2, h.1.2, h.2⟩

/-- Closed form of one maintenance tick on a state with no transient
I/O failure: the root keeps exactly its ineligible entries, the archive
keeps its own ineligible entries and then receives the eligible root
entries, and the events are the start message, one archive message per
eligible root entry, one purge message per eligible archive entry, and
the finish message. -/
theorem runLogMaintenance_ok (s : FsState) (now : Int) (h : stateOk s = true) :
    runLogMaintenance s now =
      (⟨s.root.filter (fun e => !fileEligible now SEVEN_DAYS_MS e),
        applyMoves (s.archive.filter (fun e => !fileEligible now SIX_MONTHS_MS e))
          (s.root.filter (fileEligible now SEVEN_DAYS_MS)),
        false, false⟩,
        MaintEvent.startMsg ::
          (s.root.filterMap (fun e =>
              if fileEligible now SEVEN_DAYS_MS e then
                some (MaintEvent.archived e.name)
              else none) ++
            s.archive.filterMap (fun e =>
              if fileEligible now SIX_MONTHS_MS e then
                some (MaintEvent.purged e.name)
              else none) ++
            [MaintEvent.finishedMsg])) := by
  obtain ⟨h1, h2, h3, h4⟩ := stateOk_spec s h
  simp only [runLogMaintenance, h1, h2, Bool.false_eq_true, if_false,
    processEntries_ok now SEVEN_DAYS_MS false LOG_ROOT_DIR s.root h3,
    processEntries_ok now SIX_MONTHS_MS true ARCHIVE_DIR s.archive h4,
    if_true, if_false]

/-- Each entry of a listing with no transient failures is itself free
of transient failures. -/
theorem entryOk_of_entriesOk (l : List FileEntry) (h : entriesOk l = true)
    (x : FileEntry) (hx : x ∈ l) : entryOk x = true := by
  rw [entriesOk, List.all_eq_true] at h
  exact h x hx

/-- C1: a file of the root log directory whose age at scan time
strictly exceeds seven days is, after one maintenance tick with no
transient I/O failure, present in the archive directory under its own
name and absent from the root directory. -/
theorem c1_old_root_file_archived (s : FsState) (now : Int) (f : FileEntry)
    (hok : stateOk s = true)
    (hnd : (s.root.map FileEntry.name).Nodup)
    (hf : f ∈ s.root) (hdir : f.isDir = false)
    (hage : now - f.mtimeMs > SEVEN_DAYS_MS) :
    f ∈ (runLogMaintenance s now).1.archive ∧
      ∀ h ∈ (runLogMaintenance s now).1.root, h.name ≠ f.name := by
  rw [runLogMaintenance_ok s now hok]
  have helig : fileEligible now SEVEN_DAYS_MS f = true := by
    simp [fileEligible, hdir, hage]
  constructor
  · dsimp only
    refine mem_applyMoves_of_mem_moved _ _ f ?_ (List.mem_filter.mpr ⟨hf, helig⟩)
    exact List.Nodup.sublist (List.Sublist.map _ (List.filter_sublist _)) hnd
  · intro h hh heq
    dsimp only at hh
    obtain ⟨hmem, hkeep⟩ := List.mem_filter.mp hh
    have hhf : h = f := List.inj_on_of_nodup_map hnd hmem hf heq
    rw [hhf, helig] at hkeep
    cases hkeep

def c1file : FileEntry :=
  ⟨"2024-01-01.log", 0, 0, 1, false, false, false, false⟩

def c1state : FsState := ⟨[c1file], [], false, false⟩

def c1now : Int := 8 * ONE_DAY_MS

/-- Witness for C1 at a concrete input: an eight-day-old root file is
archived by the tick. -/
theorem c1_witness :
    c1file ∈ (runLogMaintenance c1state c1now).1.archive ∧
      ∀ h ∈ (runLogMaintenance c1state c1now).1.root, h.name ≠ c1file.name :=
  c1_old_root_file_archived c1state c1now c1file (by decide) (by decide)
    (by decide) (by decide) (by decide)

/-- C2: a file of the archive directory whose age at scan time strictly
exceeds 183 days is, after one maintenance tick with no transient I/O
failure, gone from both directories. -/
theorem c2_old_archive_file_purged (s : FsState) (now : Int) (f : FileEntry)
    (hok : stateOk s = true)
    (hf : f ∈ s.archive) (hdir : f.isDir = false)
    (hage : now - f.mtimeMs > SIX_MONTHS_MS)
    (hnr : f ∉ s.root) :
    f ∉ (runLogMaintenance s now).1.root ∧
      f ∉ (runLogMaintenance s now).1.archive := by
  rw [runLogMaintenance_ok s now hok]
  have helig : fileEligible now SIX_MONTHS_MS f = true := by
    simp [fileEligible, hdir, hage]
  constructor
  · intro hmem
    dsimp only at hmem
    exact hnr (List.mem_filter.mp hmem).1
  · intro hmem
    dsimp only at hmem
    rcases mem_applyMoves _ _ f hmem with h | h
    · have hkeep := (List.mem_filter.mp h).2
      rw [helig] at hkeep
      cases hkeep
    · exact hnr (List.mem_filter.mp h).1

def c2file : FileEntry :=
  ⟨"2023-01-01.log", 0, 0, 2, false, false, false, false⟩

def c2state : FsState := ⟨[], [c2file], false, false⟩

def c2now : Int := 200 * ONE_DAY_MS

/-- Witness for C2 at a concrete input: a 200-day-old archived file is
purged by the tick. -/
theorem c2_witness :
    c2file ∉ (runLogMaintenance c2state c2now).1.root ∧
      c2file ∉ (runLogMaintenance c2state c2now).1.archive :=
  c2_old_archive_file_purged c2state c2now c2file (by decide) (by decide)
    (by decide) (by decide) (by decide)

/-- C3: eligibility is a strict comparison — a root file whose age is
at most seven days stays in the root and is not moved, and an archived
file whose age is at most 183 days survives the purge scan, whatever
the failure pattern of the other entries. -/
theorem c3_threshold_strict (s : FsState) (now : Int) (f g : FileEntry)
    (hf : f ∈ s.root) (hfage : now - f.mtimeMs ≤ SEVEN_DAYS_MS)
    (hg : g ∈ s.archive) (hgage : now - g.mtimeMs ≤ SIX_MONTHS_MS) :
    f ∈ (runLogMaintenance s now).1.root ∧
      f ∉ (processEntries now SEVEN_DAYS_MS false LOG_ROOT_DIR s.root).moved ∧
      g ∈ (processEntries now SIX_MONTHS_MS true ARCHIVE_DIR s.archive).remaining := by
  have hf' : ¬(now - f.mtimeMs > SEVEN_DAYS_MS) := not_lt.mpr hfage
  have hg' : ¬(now - g.mtimeMs > SIX_MONTHS_MS) := not_lt.mpr hgage
  refine ⟨?_, ?_, mem_remaining_of_safe _ _ _ _ _ g hg (Or.inr hg')⟩
  · simp only [runLogMaintenance]
    by_cases hr : s.rootReaddirErr = true
    · rw [if_pos hr]
      exact hf
    · rw [if_neg hr]
      exact mem_remaining_of_safe _ _ _ _ _ f hf (Or.inr hf')
  · intro hmem
    obtain ⟨_, _, hage⟩ := mem_moved_spec _ _ _ _ _ f hmem
    exact hf' hage

def c3root : FileEntry :=
  ⟨"2024-01-08.log", ONE_DAY_MS, 0, 3, false, false, false, false⟩

def c3arch : FileEntry :=
  ⟨"2023-12-01.log", 0, 0, 4, false, false, false, false⟩

def c3state : FsState := ⟨[c3root], [c3arch], false, false⟩

def c3now : Int := 8 * ONE_DAY_MS

/-- Witness for C3 at a concrete input: a root file aged exactly seven
days and an archived file aged well under 183 days are untouched. -/
theorem c3_witness :
    c3root ∈ (runLogMaintenance c3state c3now).1.root ∧
      c3root ∉ (processEntries c3now SEVEN_DAYS_MS false LOG_ROOT_DIR c3state.root).moved ∧
      c3arch ∈ (processEntries c3now SIX_MONTHS_MS true ARCHIVE_DIR c3state.archive).remaining :=
  c3_threshold_strict c3state c3now c3root c3arch (by decide) (by decide)
    (by decide) (by decide)

def c4bad : FileEntry :=
  ⟨"bad.log", 0, 0, 1, false, true, false, false⟩

def c4good : FileEntry :=
  ⟨"2024-01-01.log", 10 * ONE_DAY_MS, 0, 2, false, false, false, false⟩

def c4state : FsState := ⟨[c4bad, c4good], [], false, false⟩

def c4now : Int := 20 * ONE_DAY_MS

/-- C4, evaluated at the failing input: the root listing holds an entry
whose synchronous stat throws, followed by a ten-day-old eligible file.
The thrown exception escapes the `forEach`, so the scan aborts: the
eligible file is not archived, and no error at all is logged through
the maintenance logger — contradicting the claimed
log-and-continue semantics. -/
theorem c4_statsync_failure_aborts_scan :
    fileEligible c4now SEVEN_DAYS_MS c4good = true ∧
      (runLogMaintenance c4state c4now).1.root = [c4bad, c4good] ∧
      (runLogMaintenance c4state c4now).1.archive = [] ∧
      (runLogMaintenance c4state c4now).2.filter MaintEvent.isError = [] := by
  refine ⟨by decide, rfl, rfl, rfl⟩

/-- A maintenance tick on a state with no transient I/O failure logs no
error event. -/
theorem no_error_events_of_ok (s : FsState) (now : Int) (h : stateOk s = true) :
    (runLogMaintenance s now).2.filter MaintEvent.isError = [] := by
  rw [runLogMaintenance_ok s now h]
  dsimp only
  refine List.filter_eq_nil.mpr ?_
  intro a ha
  rcases List.mem_cons.mp ha with rfl | ha
  · decide
  · rcases List.mem_append.mp ha with ha | ha
    · rcases List.mem_append.mp ha with ha | ha
      · obtain ⟨e, _, he⟩ := List.mem_filterMap.mp ha
        split at he
        · cases he
          simp [MaintEvent.isError]
        · cases he
      · obtain ⟨e, _, he⟩ := List.mem_filterMap.mp ha
        split at he
        · cases he
          simp [MaintEvent.isError]
        · cases he
    · rw [List.mem_singleton.mp ha]
      decide

def c5src : FileEntry :=
  ⟨"2024-01-01.log", 12 * ONE_DAY_MS, 0, 1, false, false, false, false⟩

def c5old : FileEntry :=
  ⟨"2024-01-01.log", 0, 0, 2, false, false, false, false⟩

def c5state : FsState := ⟨[c5src], [c5old], false, false⟩

def c5now : Int := 20 * ONE_DAY_MS

/-- C5 is false on the code: at a concrete input where the archive
already holds a file with the same name as the eligible root file, the
move does not fail and the source is not retained — the rename goes
through, silently replacing the old archived file (its content
disappears), and no error is logged. -/
theorem c5_collision_claim_false :
    (runLogMaintenance c5state c5now).1.archive = [c5src] ∧
      c5old ∉ (runLogMaintenance c5state c5now).1.archive ∧
      (runLogMaintenance c5state c5now).1.root = [] ∧
      (runLogMaintenance c5state c5now).2.filter MaintEvent.isError = [] := by
  refine ⟨rfl, by decide, rfl, rfl⟩

/-- C5 as amended: on a destination name collision the rename silently
replaces the existing archived file — after the tick the moved source
file is in the archive, it is the only entry with that name (the old
same-named archive entry is gone), and no error is logged. -/
theorem c5_collision_overwrites (s : FsState) (now : Int) (f g : FileEntry)
    (hok : stateOk s = true)
    (hnd : (s.root.map FileEntry.name).Nodup)
    (hf : f ∈ s.root) (hdir : f.isDir = false)
    (hage : now - f.mtimeMs > SEVEN_DAYS_MS)
    (hg : g ∈ s.archive) (hname : g.name = f.name) (hne : g ≠ f) :
    f ∈ (runLogMaintenance s now).1.archive ∧
      g ∉ (runLogMaintenance s now).1.archive ∧
      (runLogMaintenance s now).2.filter MaintEvent.isError = [] := by
  have helig : fileEligible now SEVEN_DAYS_MS f = true := by
    simp [fileEligible, hdir, hage]
  have hmv : f ∈ s.root.filter (fileEligible now SEVEN_DAYS_MS) :=
    List.mem_filter.mpr ⟨hf, helig⟩
  have hmvnd : ((s.root.filter (fileEligible now SEVEN_DAYS_MS)).map FileEntry.name).Nodup :=
    List.Nodup.sublist (List.Sublist.map _ (List.filter_sublist _)) hnd
  refine ⟨?_, ?_, no_error_events_of_ok s now hok⟩
  · rw [runLogMaintenance_ok s now hok]
    dsimp only
    exact mem_applyMoves_of_mem_moved _ _ f hmvnd hmv
  · rw [runLogMaintenance_ok s now hok]
    dsimp only
    intro hmem
    exact hne (applyMoves_name_unique _ _ f hmvnd hmv g hmem hname)

/-- Witness for the amended C5 at a concrete input: the moved file is
in the archive, the old same-named archived file is gone, and no error
was logged. -/
theorem c5_witness :
    c5src ∈ (runLogMaintenance c5state c5now).1.archive ∧
      c5old ∉ (runLogMaintenance c5state c5now).1.archive ∧
      (runLogMaintenance c5state c5now).2.filter MaintEvent.isError = [] :=
  c5_collision_overwrites c5state c5now c5src c5old (by decide) (by decide)
    (by decide) (by decide) (by decide) (by decide) (by decide) (by decide)

/-- C6: the tick applies the archive rule to the root directory and
then the purge rule to the archive directory, and the two applications
are independent — even when the root listing itself fails, the purge
rule still runs in the same tick: the archive directory is still
reduced to the purge scan's survivors, and the purge scan's events are
still logged (after the root failure event, reflecting the order of
the two rule applications). -/
theorem c6_purge_runs_after_archive_failure (s : FsState) (now : Int)
    (h : s.archiveReaddirErr = false) :
    (runLogMaintenance { s with rootReaddirErr := true } now).1.root = s.root ∧
      (runLogMaintenance { s with rootReaddirErr := true } now).1.archive =
        (processEntries now SIX_MONTHS_MS true ARCHIVE_DIR s.archive).remaining ∧
      (runLogMaintenance { s with rootReaddirErr := true } now).2 =
        MaintEvent.startMsg :: MaintEvent.readDirFailed LOG_ROOT_DIR ::
          ((processEntries now SIX_MONTHS_MS true ARCHIVE_DIR s.archive).events ++
            [MaintEvent.finishedMsg]) := by
  refine ⟨?_, ?_, ?_⟩ <;> simp [runLogMaintenance, h, applyMoves]

def c6old : FileEntry :=
  ⟨"2023-01-01.log", 0, 0, 5, false, false, false, false⟩

def c6state : FsState := ⟨[], [c6old], false, false⟩

def c6now : Int := 200 * ONE_DAY_MS

/-- Witness for C6 at a concrete input: with the root listing failing,
the 200-day-old archived file is still purged in the same tick. -/
theorem c6_witness :
    (runLogMaintenance { c6state with rootReaddirErr := true } c6now).1.root = c6state.root ∧
      (runLogMaintenance { c6state with rootReaddirErr := true } c6now).1.archive =
        (processEntries c6now SIX_MONTHS_MS true ARCHIVE_DIR c6state.archive).remaining ∧
      (runLogMaintenance { c6state with rootReaddirErr := true } c6now).2 =
        MaintEvent.startMsg :: MaintEvent.readDirFailed LOG_ROOT_DIR ::
          ((processEntries c6now SIX_MONTHS_MS true ARCHIVE_DIR c6state.archive).events ++
            [MaintEvent.finishedMsg]) :=
  c6_purge_runs_after_archive_failure c6state c6now (by decide)

/-- Overwrite an entry's creation timestamp, leaving every other
attribute alone. -/
def setBirth (b : Int) (e : FileEntry) : FileEntry :=
  { e with birthtimeMs := b }

/-- The scan never consults creation timestamps: rewriting every
entry's `birthtimeMs` leaves the scan's decisions and events unchanged
(the resulting entries only differ by the same rewriting). -/
theorem processEntries_setBirth (now maxAgeMs : Int) (p : Bool) (d : String)
    (b : Int) :
    ∀ l : List FileEntry,
      processEntries now maxAgeMs p d (l.map (setBirth b)) =
        ⟨(processEntries now maxAgeMs p d l).remaining.map (setBirth b),
          (processEntries now maxAgeMs p d l).moved.map (setBirth b),
          (processEntries now maxAgeMs p d l).events⟩ := by
  intro l
  induction l with
  | nil => rfl
  | cons e rest ih =>
    simp only [List.map_cons, processEntries, setBirth]
    by_cases hss : e.statSyncErr = true
    · simp [hss, setBirth]
    · rw [Bool.not_eq_true] at hss
      by_cases hd : e.isDir = true
      · simp [hss, hd, ih, setBirth]
      · rw [Bool.not_eq_true] at hd
        by_cases hse : e.statErr = true
        · simp [hss, hd, hse, ih, entryPath, setBirth]
        · rw [Bool.not_eq_true] at hse
          by_cases hage : now - e.mtimeMs > maxAgeMs
          · by_cases hop : e.opErr = true
            · cases p <;> simp [hss, hd, hse, hage, hop, ih, entryPath, setBirth]
            · rw [Bool.not_eq_true] at hop
              cases p <;> simp [hss, hd, hse, hage, hop, ih, entryPath, setBirth]
          · simp [hss, hd, hse, hage, ih, setBirth]

/-- C7: with `now` the single reference timestamp of the run, a file of
either directory is acted on exactly when `now` minus its last-modified
timestamp exceeds the rule's threshold — the root file stays iff its
mtime-age is at most seven days, the archived file survives the purge
scan iff its mtime-age is at most 183 days, both against the same
`now` — and the scan is invariant under rewriting creation timestamps,
so a file touched externally (fresh mtime) is judged young again. -/
theorem c7_age_from_mtime_and_run_start (s : FsState) (now : Int)
    (f g : FileEntry) (maxAgeMs : Int) (p : Bool) (d : String)
    (l : List FileEntry) (b : Int)
    (hok : stateOk s = true)
    (hf : f ∈ s.root) (hfd : f.isDir = false)
    (hg : g ∈ s.archive) (hgd : g.isDir = false) :
    (f ∈ (runLogMaintenance s now).1.root ↔ now - f.mtimeMs ≤ SEVEN_DAYS_MS) ∧
      (g ∈ (processEntries now SIX_MONTHS_MS true ARCHIVE_DIR s.archive).remaining ↔
        now - g.mtimeMs ≤ SIX_MONTHS_MS) ∧
      processEntries now maxAgeMs p d (l.map (setBirth b)) =
        ⟨(processEntries now maxAgeMs p d l).remaining.map (setBirth b),
          (processEntries now maxAgeMs p d l).moved.map (setBirth b),
          (processEntries now maxAgeMs p d l).events⟩ := by
  obtain ⟨h1, h2, h3, h4⟩ := stateOk_spec s hok
  refine ⟨?_, ?_, processEntries_setBirth now maxAgeMs p d b l⟩
  · rw [runLogMaintenance_ok s now hok]
    dsimp only
    rw [List.mem_filter]
    constructor
    · intro ⟨_, hkeep⟩
      rw [Bool.not_eq_true', fileEligible, hfd] at hkeep
      simp only [Bool.not_false, Bool.true_and, decide_eq_false_iff_not, not_lt] at hkeep
      exact hkeep
    · intro hle
      refine ⟨hf, ?_⟩
      simp [fileEligible, hfd, not_lt.mpr hle]
  · rw [processEntries_ok now SIX_MONTHS_MS true ARCHIVE_DIR s.archive h4]
    dsimp only
    rw [List.mem_filter]
    constructor
    · intro ⟨_, hkeep⟩
      rw [Bool.not_eq_true', fileEligible, hgd] at hkeep
      simp only [Bool.not_false, Bool.true_and, decide_eq_false_iff_not, not_lt] at hkeep
      exact hkeep
    · intro hle
      refine ⟨hg, ?_⟩
      simp [fileEligible, hgd, not_lt.mpr hle]

def c7rootFile : FileEntry :=
  ⟨"2024-01-05.log", 2 * ONE_DAY_MS, 0, 6, false, false, false, false⟩

def c7archFile : FileEntry :=
  ⟨"2023-06-01.log", 0, 0, 7, false, false, false, false⟩

def c7state : FsState := ⟨[c7rootFile], [c7archFile], false, false⟩

def c7now : Int := 10 * ONE_DAY_MS

/-- Witness for C7 at a concrete input. -/
theorem c7_witness :
    (c7rootFile ∈ (runLogMaintenance c7state c7now).1.root ↔
        c7now - c7rootFile.mtimeMs ≤ SEVEN_DAYS_MS) ∧
      (c7archFile ∈ (processEntries c7now SIX_MONTHS_MS true ARCHIVE_DIR c7state.archive).remaining ↔
        c7now - c7archFile.mtimeMs ≤ SIX_MONTHS_MS) ∧
      processEntries c7now SEVEN_DAYS_MS false LOG_ROOT_DIR
          ([c7rootFile].map (setBirth (9 * ONE_DAY_MS))) =
        ⟨(processEntries c7now SEVEN_DAYS_MS false LOG_ROOT_DIR [c7rootFile]).remaining.map
            (setBirth (9 * ONE_DAY_MS)),
          (processEntries c7now SEVEN_DAYS_MS false LOG_ROOT_DIR [c7rootFile]).moved.map
            (setBirth (9 * ONE_DAY_MS)),
          (processEntries c7now SEVEN_DAYS_MS false LOG_ROOT_DIR [c7rootFile]).events⟩ :=
  c7_age_from_mtime_and_run_start c7state c7now c7rootFile c7archFile
    SEVEN_DAYS_MS false LOG_ROOT_DIR [c7rootFile] (9 * ONE_DAY_MS)
    (by decide) (by decide) (by decide) (by decide) (by decide)

/-- C8: a directory entry — in particular the archive subdirectory
listed inside the root — is never treated as a file by either rule: it
stays in its directory after the scan and is never among the moved
files, whatever the failure pattern. -/
theorem c8_directories_untouched (s : FsState) (now : Int) (e : FileEntry)
    (hdir : e.isDir = true) :
    (e ∈ s.root → e ∈ (runLogMaintenance s now).1.root) ∧
      (e ∈ s.archive →
        e ∈ (processEntries now SIX_MONTHS_MS true ARCHIVE_DIR s.archive).remaining) ∧
      e ∉ (processEntries now SEVEN_DAYS_MS false LOG_ROOT_DIR s.root).moved := by
  refine ⟨?_, fun h => mem_remaining_of_safe _ _ _ _ _ e h (Or.inl hdir), ?_⟩
  · intro h
    simp only [runLogMaintenance]
    by_cases hr : s.rootReaddirErr = true
    · rw [if_pos hr]
      exact h
    · rw [if_neg hr]
      exact mem_remaining_of_safe _ _ _ _ _ e h (Or.inl hdir)
  · intro hm
    obtain ⟨_, hd, _⟩ := mem_moved_spec _ _ _ _ _ e hm
    rw [hdir] at hd
    cases hd

def c8dir : FileEntry :=
  ⟨"archive", 0, 0, 8, true, false, false, false⟩

def c8state : FsState := ⟨[c8dir], [], false, false⟩

def c8now : Int := 400 * ONE_DAY_MS

/-- Witness for C8 at a concrete input: a 400-day-old directory entry
named `archive` in the root is neither moved nor purged. -/
theorem c8_witness :
    (c8dir ∈ c8state.root → c8dir ∈ (runLogMaintenance c8state c8now).1.root) ∧
      (c8dir ∈ c8state.archive →
        c8dir ∈ (processEntries c8now SIX_MONTHS_MS true ARCHIVE_DIR c8state.archive).remaining) ∧
      c8dir ∉ (processEntries c8now SEVEN_DAYS_MS false LOG_ROOT_DIR c8state.root).moved :=
  c8_directories_untouched c8state c8now c8dir (by decide)

/-- C9: maintenance is idempotent.  If no transient I/O failure occurs
and no file becomes newly eligible between the runs — in particular no
root file is already past the 183-day purge ceiling, since such a file
would enter the archive on the first run as a newly purge-eligible
entry — then a second run on the resulting state changes nothing and
logs only the start and finish messages, no errors. -/
theorem c9_idempotent_second_run (s : FsState) (now : Int)
    (hok : stateOk s = true)
    (hroot : ∀ f ∈ s.root, now - f.mtimeMs ≤ SIX_MONTHS_MS) :
    runLogMaintenance (runLogMaintenance s now).1 now =
      ((runLogMaintenance s now).1, [MaintEvent.startMsg, MaintEvent.finishedMsg]) := by
  obtain ⟨h1, h2, h3, h4⟩ := stateOk_spec s hok
  rw [runLogMaintenance_ok s now hok]
  dsimp only
  have hroot1 : entriesOk (s.root.filter (fun e => !fileEligible now SEVEN_DAYS_MS e)) = true := by
    rw [entriesOk, List.all_eq_true]
    intro x hx
    exact entryOk_of_entriesOk s.root h3 x (List.mem_filter.mp hx).1
  have harch1 : entriesOk
      (applyMoves (s.archive.filter (fun e => !fileEligible now SIX_MONTHS_MS e))
        (s.root.filter (fileEligible now SEVEN_DAYS_MS))) = true := by
    rw [entriesOk, List.all_eq_true]
    intro x hx
    rcases mem_applyMoves _ _ x hx with h | h
    · exact entryOk_of_entriesOk s.archive h4 x (List.mem_filter.mp h).1
    · exact entryOk_of_entriesOk s.root h3 x (List.mem_filter.mp h).1
  have hok1 : stateOk
      (⟨s.root.filter (fun e => !fileEligible now SEVEN_DAYS_MS e),
        applyMoves (s.archive.filter (fun e => !fileEligible now SIX_MONTHS_MS e))
          (s.root.filter (fileEligible now SEVEN_DAYS_MS)), false, false⟩ : FsState) = true := by
    simp [stateOk, hroot1, harch1]
  rw [runLogMaintenance_ok _ now hok1]
  dsimp only
  have keep1 : ∀ x ∈ s.root.filter (fun e => !fileEligible now SEVEN_DAYS_MS e),
      (!fileEligible now SEVEN_DAYS_MS x) = true :=
    fun x hx => (List.mem_filter.mp hx).2
  have keep2 : ∀ x ∈ applyMoves (s.archive.filter (fun e => !fileEligible now SIX_MONTHS_MS e))
        (s.root.filter (fileEligible now SEVEN_DAYS_MS)),
      (!fileEligible now SIX_MONTHS_MS x) = true := by
    intro x hx
    rcases mem_applyMoves _ _ x hx with h | h
    · exact (List.mem_filter.mp h).2
    · have hx' := (List.mem_filter.mp h).1
      simp [fileEligible, not_lt.mpr (hroot x hx')]
  have hA : (s.root.filter (fun e => !fileEligible now SEVEN_DAYS_MS e)).filter
      (fun e => !fileEligible now SEVEN_DAYS_MS e) =
      s.root.filter (fun e => !fileEligible now SEVEN_DAYS_MS e) :=
    List.filter_eq_self.mpr keep1
  have hB1 : (applyMoves (s.archive.filter (fun e => !fileEligible now SIX_MONTHS_MS e))
        (s.root.filter (fileEligible now SEVEN_DAYS_MS))).filter
      (fun e => !fileEligible now SIX_MONTHS_MS e) =
      applyMoves (s.archive.filter (fun e => !fileEligible now SIX_MONTHS_MS e))
        (s.root.filter (fileEligible now SEVEN_DAYS_MS)) :=
    List.filter_eq_self.mpr keep2
  have hB2 : (s.root.filter (fun e => !fileEligible now SEVEN_DAYS_MS e)).filter
      (fileEligible now SEVEN_DAYS_MS) = [] := by
    refine List.filter_eq_nil.mpr ?_
    intro x hx
    have := keep1 x hx
    rw [Bool.not_eq_true'] at this
    simp [this]
  have hE1 : (s.root.filter (fun e => !fileEligible now SEVEN_DAYS_MS e)).filterMap
      (fun e => if fileEligible now SEVEN_DAYS_MS e then
        some (MaintEvent.archived e.name) else none) = [] := by
    refine List.filterMap_eq_nil.mpr ?_
    intro x hx
    have := keep1 x hx
    rw [Bool.not_eq_true'] at this
    simp [this]
  have hE2 : (applyMoves (s.archive.filter (fun e => !fileEligible now SIX_MONTHS_MS e))
        (s.root.filter (fileEligible now SEVEN_DAYS_MS))).filterMap
      (fun e => if fileEligible now SIX_MONTHS_MS e then
        some (MaintEvent.purged e.name) else none) = [] := by
    refine List.filterMap_eq_nil.mpr ?_
    intro x hx
    have := keep2 x hx
    rw [Bool.not_eq_true'] at this
    simp [this]
  rw [hA, hB1, hB2, hE1, hE2]
  rfl

def c9stale : FileEntry :=
  ⟨"2024-01-01.log", 0, 0, 9, false, false, false, false⟩

def c9fresh : FileEntry :=
  ⟨"2024-01-09.log", 8 * ONE_DAY_MS, 0, 10, false, false, false, false⟩

def c9state : FsState := ⟨[c9stale, c9fresh], [], false, false⟩

def c9now : Int := 10 * ONE_DAY_MS

/-- Witness for C9 at a concrete input: after a first run archives the
ten-day-old file, a second run changes nothing and logs no error. -/
theorem c9_witness :
    runLogMaintenance (runLogMaintenance c9state c9now).1 c9now =
      ((runLogMaintenance c9state c9now).1,
        [MaintEvent.startMsg, MaintEvent.finishedMsg]) :=
  c9_idempotent_second_run c9state c9now (by decide) (by decide)

/-- ASCII whitespace recognised by the string `trim` call: space, tab,
line feed, vertical tab, form feed and carriage return. -/
def isJsWhitespaceChar (c : Char) : Bool :=
  c = ' ' || c = '\t' || c = '\n' || c = '\x0b' || c = '\x0c' || c = '\r'

/-- The `trim()` of the log line: whitespace is removed from both ends
of the string. -/
def jsTrim (l : List Char) : List Char :=
  ((l.dropWhile isJsWhitespaceChar).reverse.dropWhile isJsWhitespaceChar).reverse

/-- The log line built by `logToFile`: timestamp, space, the level
upper-cased in brackets, space, message, newline. -/
def logEntryChars (ts level msg : List Char) : List Char :=
  ts ++ " [".toList ++ level.map Char.toUpper ++ "] ".toList ++ msg ++ ['\n']

/-- The pair of outputs of `logToFile`: the line appended to the daily
file (with its newline) and the copy printed to standard output (the
line after `trim()`). -/
def logToFile (ts level msg : List Char) : List Char × List Char :=
  (logEntryChars ts level msg, jsTrim (logEntryChars ts level msg))

/-- Dropping the last element of a list that ends in a singleton. -/
theorem dropLast_append_singleton (xs : List Char) (x : Char) :
    (xs ++ [x]).dropLast = xs := by
  simp

/-- Trimming a string that starts and ends with non-whitespace before a
final newline removes exactly that newline. -/
theorem jsTrim_eq_dropLast (l : List Char) (c0 : Char) (mid : List Char) (cn : Char)
    (hshape : l = ((c0 :: mid) ++ [cn]) ++ ['\n'])
    (h0 : isJsWhitespaceChar c0 = false)
    (hn : isJsWhitespaceChar cn = false) :
    jsTrim l = l.dropLast := by
  subst hshape
  rw [jsTrim]
  have h₁ : ((((c0 :: mid) ++ [cn]) ++ ['\n']).dropWhile isJsWhitespaceChar)
      = ((c0 :: mid) ++ [cn]) ++ ['\n'] := by
    simp [List.cons_append, List.dropWhile_cons, h0]
  rw [h₁]
  have h₂ : (((c0 :: mid) ++ [cn]) ++ ['\n']).reverse
      = '\n' :: cn :: (c0 :: mid).reverse := by
    simp [List.reverse_append]
  rw [h₂]
  have h₃ : (('\n' :: cn :: (c0 :: mid).reverse).dropWhile isJsWhitespaceChar)
      = cn :: (c0 :: mid).reverse := by
    have hNL : isJsWhitespaceChar '\n' = true := by decide
    simp [List.dropWhile_cons, hNL, hn]
  rw [h₃]
  rw [dropLast_append_singleton]
  simp

/-- C10 is false on the code as stated: `trim()` strips all trailing
whitespace, not just the final newline, so for a message ending in a
space the standard-output copy is not the file line minus its
newline. -/
theorem c10_stdout_trim_claim_false :
    (logToFile ("2025-01-01T00:00:00.000Z".toList) ("info".toList) ("ping ".toList)).2 ≠
      (logToFile ("2025-01-01T00:00:00.000Z".toList) ("info".toList) ("ping ".toList)).1.dropLast := by
  decide

/-- C10 as amended: the file line is
timestamp, space, upper-cased level in brackets, space, message,
newline; and provided the timestamp starts with a non-whitespace
character and the message ends with one, the standard-output copy is
exactly that line with the trailing newline removed (in general it is
the line with all leading and trailing whitespace removed). -/
theorem c10_line_format_and_stdout (ts level msg ts' msg' : List Char) (c0 cn : Char)
    (hts : ts = c0 :: ts') (h0 : isJsWhitespaceChar c0 = false)
    (hmsg : msg = msg' ++ [cn]) (hn : isJsWhitespaceChar cn = false) :
    (logToFile ts level msg).1 =
      ts ++ " [".toList ++ level.map Char.toUpper ++ "] ".toList ++ msg ++ ['\n'] ∧
      (logToFile ts level msg).2 = (logToFile ts level msg).1.dropLast := by
  subst hts
  subst hmsg
  refine ⟨rfl, ?_⟩
  refine jsTrim_eq_dropLast _ c0
    (ts' ++ " [".toList ++ level.map Char.toUpper ++ "] ".toList ++ msg') cn ?_ h0 hn
  simp [logEntryChars, List.append_assoc]

def c10wts : List Char := "2025-02-03T04:05:06.789Z".toList

def c10wlevel : List Char := "info".toList

def c10wmsg : List Char := "server started".toList

/-- Witness for the amended C10 at a concrete input. -/
theorem c10_witness :
    (logToFile c10wts c10wlevel c10wmsg).1 =
      c10wts ++ " [".toList ++ c10wlevel.map Char.toUpper ++ "] ".toList ++ c10wmsg ++ ['\n'] ∧
      (logToFile c10wts c10wlevel c10wmsg).2 = (logToFile c10wts c10wlevel c10wmsg).1.dropLast :=
  c10_line_format_and_stdout c10wts c10wlevel c10wmsg
    ("025-02-03T04:05:06.789Z".toList) ("server starte".toList) '2' 'd'
    (by decide) (by decide) (by decide) (by decide)

end FifthWebApp
